import Mathlib

/-!
Shallow embedding of BEditor's NBT viewer (`src/nbt_view.rs`).

The repository's only source file implements an NBT (Named Binary Tag)
viewer: a state struct `NbtView` holding a file path, a dialect selection
(`NbtEndian`), a header-mode selection (`NbtHeader`) and the last decode
result; a decode routine `parse_nbt` that reads the file, optionally reads
an 8-byte header (two little-endian signed 32-bit integers) and then
dispatches on the dialect to one of three deserializers from the external
`bedrock_rs` crate; an `update` message handler; and a recursive renderer
`nbt2elements` that turns a tag tree into a tree of iced widgets.

External collaborators (the file system, and the three `bedrock_rs`
deserializers) are modelled as parameters collected in `Externals`; the
byte cursor `ByteStreamRead` and its `read_i32le` operation are modelled
from the spec's Byte Cursor contract. Bytes are natural numbers; machine
i32 values are `Int` produced with explicit two's-complement conversion.
Floating-point payloads of `Float32`/`Float64` tags are carried as the
string of their display form, since the viewer never computes with them,
it only formats them.
-/

namespace BEditor

/-- Two's-complement interpretation of four bytes in little-endian order
as a signed 32-bit integer. -/
def i32ofLeBytes (b0 b1 b2 b3 : Nat) : Int :=
  let u : Nat := b0 % 256 + 256 * (b1 % 256) + 65536 * (b2 % 256) + 16777216 * (b3 % 256)
  if u < 2147483648 then (u : Int) else (u : Int) - 4294967296

/-- Model of `bedrock_rs::core::read::ByteStreamRead`: an immutable byte
buffer together with a read position. `ByteStreamRead::from(data)` is
`⟨data, 0⟩`. -/
structure ByteStreamRead where
  data : List Nat
  pos : Nat
deriving DecidableEq

/-- Modelled from the spec: the Byte Cursor's little-endian signed 32-bit
read (`read_i32le` of the external `bedrock_rs` crate, whose source is not
part of this repository). It fails with `UnexpectedEof` when fewer than 4
bytes remain, otherwise decodes 4 bytes little-endian as a signed 32-bit
integer and advances the position by exactly 4. -/
def ByteStreamRead.read_i32le (s : ByteStreamRead) : Except String (Int × ByteStreamRead) :=
  match s.data.drop s.pos with
  | b0 :: b1 :: b2 :: b3 :: _ => .ok (i32ofLeBytes b0 b1 b2 b3, ⟨s.data, s.pos + 4⟩)
  | _ => .error "UnexpectedEof"

/-- Model of `bedrock_rs::nbt::NbtTag`. Integer payloads are `Int`;
the float payloads are carried as their display string (the viewer only
ever formats them); `Compound` is the ordered list of its entries in
iteration order. -/
inductive NbtTag where
  | Byte (v : Int)
  | Int16 (v : Int)
  | Int32 (v : Int)
  | Int64 (v : Int)
  | Float32 (v : String)
  | Float64 (v : String)
  | String (v : String)
  | List (v : List NbtTag)
  | Compound (v : List (String × NbtTag))
  | Empty

/-- The dialect selection enum `NbtEndian` of `nbt_view.rs`. -/
inductive NbtEndian where
  | Little
  | LittleNetwork
  | Big
deriving DecidableEq

/-- The header-mode selection enum `NbtHeader` of `nbt_view.rs`. -/
inductive NbtHeader where
  | None
  | Normal
  | LevelDat
deriving DecidableEq

/-- The `NbtView` state struct: path text field, last decode result,
dialect selection, header-mode selection. -/
structure NbtView where
  path : String
  nbt : Except String (String × NbtTag × Option (Int × Int))
  endian : NbtEndian
  header : NbtHeader

/-- The external collaborators of `parse_nbt`, modelled as parameters:
`fsRead` stands for `std::fs::read` (the error string standing for the
Debug formatting of the io error), and the three deserializers stand for
`NbtTag::nbt_deserialize::<NbtLittleEndian>`,
`NbtTag::nbt_deserialize::<NbtLittleEndianNetwork>` and
`NbtTag::nbt_deserialize::<NbtBigEndian>` of the external `bedrock_rs`
crate (the error string standing for the Debug formatting of the nbt
error). -/
structure Externals where
  fsRead : String → Except String (List Nat)
  deserLittle : ByteStreamRead → Except String (String × NbtTag)
  deserLittleNetwork : ByteStreamRead → Except String (String × NbtTag)
  deserBig : ByteStreamRead → Except String (String × NbtTag)

/-- The header-reading block of `parse_nbt` (`nbt_view.rs` lines 86-107):
for mode `None` nothing is read and the header is `none`; otherwise two
little-endian signed 32-bit integers are read in order, each read failure
returning `Error reading Nbt header: ...` at once. -/
def headerStep (mode : NbtHeader) (stream0 : ByteStreamRead) :
    Except String (Option (Int × Int) × ByteStreamRead) :=
  match mode with
  | .None => .ok (none, stream0)
  | .Normal | .LevelDat =>
    match stream0.read_i32le with
    | .error e => .error ("Error reading Nbt header: " ++ e)
    | .ok (first, s1) =>
      match s1.read_i32le with
      | .error e => .error ("Error reading Nbt header: " ++ e)
      | .ok (second, s2) => .ok (some (first, second), s2)

/-- `NbtView::parse_nbt` (`nbt_view.rs` lines 76-125): read the file at
`self.path`, wrap the bytes in a cursor, read the optional header, then
match on the dialect and run the corresponding deserializer on the rest
of the stream; every failure is returned immediately with its step's
message prefix. -/
def NbtView.parse_nbt (ext : Externals) (self : NbtView) :
    Except String (String × NbtTag × Option (Int × Int)) :=
  match ext.fsRead self.path with
  | .error e => .error ("Error reading File: " ++ e)
  | .ok data =>
    match headerStep self.header ⟨data, 0⟩ with
    | .error e => .error e
    | .ok (header, stream) =>
      match self.endian with
      | .Little =>
        match ext.deserLittle stream with
        | .ok v => .ok (v.1, v.2, header)
        | .error e => .error ("Error parsing Nbt: " ++ e)
      | .LittleNetwork =>
        match ext.deserLittleNetwork stream with
        | .ok v => .ok (v.1, v.2, header)
        | .error e => .error ("Error parsing Nbt: " ++ e)
      | .Big =>
        match ext.deserBig stream with
        | .ok v => .ok (v.1, v.2, header)
        | .error e => .error ("Error parsing Nbt: " ++ e)

/-- The deserializer that `parse_nbt`'s dialect match selects for each
`NbtEndian` value (used to state the control-flow theorems). -/
def Externals.deserFor (ext : Externals) (e : NbtEndian) :
    ByteStreamRead → Except String (String × NbtTag) :=
  match e with
  | .Little => ext.deserLittle
  | .LittleNetwork => ext.deserLittleNetwork
  | .Big => ext.deserBig

/-- The message enum variants handled by `NbtView::update` (the match in
`nbt_view.rs` lines 236-241 is exhaustive without a wildcard, so these are
exactly the variants of `BEditorMessage`). -/
inductive BEditorMessage where
  | NbtViewSetPath (v : String)
  | NbtViewSetEndian (v : NbtEndian)
  | NbtViewSetHeader (v : NbtHeader)
  | NbtViewRefresh

/-- `NbtView::update` (`nbt_view.rs` lines 235-244): apply the message's
field assignment, then unconditionally recompute `self.nbt` by a fresh
`parse_nbt`. -/
def NbtView.update (ext : Externals) (self : NbtView) (message : BEditorMessage) : NbtView :=
  let s : NbtView :=
    match message with
    | .NbtViewSetPath v => { self with path := v }
    | .NbtViewSetEndian v => { self with endian := v }
    | .NbtViewSetHeader v => { self with header := v }
    | .NbtViewRefresh => self
  { s with nbt := s.parse_nbt ext }

/-- The `INDENTATION` constant (`nbt_view.rs` line 14). In the source it
is the f32 value `3.0`; all its uses multiply it by a small natural
number, which is exact in f32, so it is modelled as the natural number 3. -/
def INDENTATION : Nat := 3

/-- Model of the iced `Padding` values built in `nbt2elements` (all four
components are exact small f32 values, modelled as naturals). -/
structure Padding where
  top : Nat
  right : Nat
  bottom : Nat
  left : Nat
deriving DecidableEq

/-- Model of the iced widget tree that `nbt2elements` builds: each source
`Column` with its padding and pushed children (in push order) becomes a
`column` node, each `Text` line becomes a `text` node. -/
inductive Element where
  | text (s : String)
  | column (padding : Padding) (children : List Element)

/-- The name separator used throughout `nbt2elements`: the source inserts
the string `: ` after the name exactly when the name is non-empty
(`if !name.is_empty() ...`). -/
def nameSep (name : String) : String :=
  if name.isEmpty then "" else ": "

mutual

/-- `NbtView::nbt2elements` (`nbt_view.rs` lines 127-222): render one tag
as a `Column` whose left padding is `indent * INDENTATION`, containing
the tag's text line(s) and, for `List`/`Compound`, the recursively
rendered children at `indent + 1` between an opening and a closing
bracket line. -/
def nbt2elements (name : String) (tag : NbtTag) (indent : Nat) : Element :=
  let padding : Padding := ⟨0, 0, 0, indent * INDENTATION⟩
  match tag with
  | .Byte v =>
      .column padding [.text (name ++ nameSep name ++ "Byte(" ++ toString v ++ ")")]
  | .Int16 v =>
      .column padding [.text (name ++ nameSep name ++ "Int16(" ++ toString v ++ ")")]
  | .Int32 v =>
      .column padding [.text (name ++ nameSep name ++ "Int32(" ++ toString v ++ ")")]
  | .Int64 v =>
      .column padding [.text (name ++ nameSep name ++ "Int64(" ++ toString v ++ ")")]
  | .Float32 v =>
      .column padding [.text (name ++ nameSep name ++ "Float32(" ++ v ++ ")")]
  | .Float64 v =>
      .column padding [.text (name ++ nameSep name ++ "Float64(" ++ v ++ ")")]
  | .String v =>
      .column padding [.text (name ++ nameSep name ++ "\"" ++ v ++ "\"")]
  | .List v =>
      .column padding
        (Element.text (name ++ nameSep name ++ "[") ::
          (listChildren v (indent + 1) ++ [Element.text "]"]))
  | .Compound v =>
      .column padding
        (Element.text (name ++ nameSep name ++ "\x7b") ::
          (compoundChildren v (indent + 1) ++ [Element.text "\x7d"]))
  | .Empty =>
      .column padding [.text (name ++ ": EMPTY")]

/-- The `for nbt in v.iter()` loop of the `List` arm: each element is
rendered with the empty name at the incremented indent. -/
def listChildren (v : List NbtTag) (indent : Nat) : List Element :=
  match v with
  | [] => []
  | t :: rest => nbt2elements "" t indent :: listChildren rest indent

/-- The `for (str, nbt) in v.iter()` loop of the `Compound` arm: each
entry is rendered with its own name at the incremented indent. -/
def compoundChildren (v : List (String × NbtTag)) (indent : Nat) : List Element :=
  match v with
  | [] => []
  | e :: rest => nbt2elements e.1 e.2 indent :: compoundChildren rest indent

end

end BEditor

namespace BEditor

theorem listChildren_eq_map (v : List NbtTag) (indent : Nat) :
    listChildren v indent = v.map (fun t => nbt2elements "" t indent) := by
  induction v with
  | nil => simp [listChildren]
  | cons t rest ih => simp [listChildren, ih]

theorem compoundChildren_eq_map (v : List (String × NbtTag)) (indent : Nat) :
    compoundChildren v indent = v.map (fun e => nbt2elements e.1 e.2 indent) := by
  induction v with
  | nil => simp [compoundChildren]
  | cons e rest ih => simp [compoundChildren, ih]

theorem nameSep_empty : nameSep "" = "" := rfl

theorem read_i32le_error_of_short (s : ByteStreamRead) (h : s.data.length < s.pos + 4) :
    s.read_i32le = .error "UnexpectedEof" := by
  have hlen : (s.data.drop s.pos).length < 4 := by
    rw [List.length_drop]; omega
  unfold ByteStreamRead.read_i32le
  rcases hdrop : s.data.drop s.pos with _ | ⟨a, _ | ⟨b, _ | ⟨c, _ | ⟨d, rest⟩⟩⟩⟩ <;>
    first
      | rfl
      | (rw [hdrop] at hlen
         simp only [List.length_cons] at hlen
         omega)

theorem read_i32le_ok_of_le (s : ByteStreamRead) (h : s.pos + 4 ≤ s.data.length) :
    ∃ v, s.read_i32le = .ok (v, ⟨s.data, s.pos + 4⟩) := by
  have hlen : 4 ≤ (s.data.drop s.pos).length := by
    rw [List.length_drop]; omega
  unfold ByteStreamRead.read_i32le
  rcases hdrop : s.data.drop s.pos with _ | ⟨a, _ | ⟨b, _ | ⟨c, _ | ⟨d, rest⟩⟩⟩⟩ <;>
    first
      | exact ⟨_, rfl⟩
      | (rw [hdrop] at hlen
         simp only [List.length_cons, List.length_nil] at hlen
         omega)

theorem read_i32le_ok_bounds (s : ByteStreamRead) (v : Int) (s' : ByteStreamRead)
    (h : s.read_i32le = .ok (v, s')) :
    s'.data = s.data ∧ s'.pos = s.pos + 4 ∧ s.pos + 4 ≤ s.data.length := by
  have hlen : (s.data.drop s.pos).length = s.data.length - s.pos := List.length_drop _ _
  unfold ByteStreamRead.read_i32le at h
  rcases hdrop : s.data.drop s.pos with _ | ⟨a, _ | ⟨b, _ | ⟨c, _ | ⟨d, rest⟩⟩⟩⟩ <;>
    rw [hdrop] at h <;>
    first
      | (rw [hdrop] at hlen
         simp only [List.length_cons] at hlen
         simp only [Except.ok.injEq, Prod.mk.injEq] at h
         refine ⟨by rw [← h.2], by rw [← h.2], by omega⟩)
      | simp at h

theorem headerStep_ok_of_ne_none (mode : NbtHeader) (hm : mode ≠ NbtHeader.None)
    (data : List Nat) (hd : Option (Int × Int)) (stream : ByteStreamRead)
    (h : headerStep mode ⟨data, 0⟩ = .ok (hd, stream)) :
    ∃ b0 b1 b2 b3 b4 b5 b6 b7 rest,
      data = b0 :: b1 :: b2 :: b3 :: b4 :: b5 :: b6 :: b7 :: rest ∧
      hd = some (i32ofLeBytes b0 b1 b2 b3, i32ofLeBytes b4 b5 b6 b7) ∧
      stream = ⟨data, 8⟩ := by
  rcases data with _ | ⟨b0, _ | ⟨b1, _ | ⟨b2, _ | ⟨b3, _ | ⟨b4, _ | ⟨b5, _ | ⟨b6, _ | ⟨b7, rest⟩⟩⟩⟩⟩⟩⟩⟩ <;>
    cases mode
  any_goals exact absurd rfl hm
  all_goals simp [headerStep, ByteStreamRead.read_i32le] at h
  all_goals exact ⟨_, _, _, _, _, _, _, _, _, rfl, h.1.symm, h.2.symm⟩

theorem parse_nbt_eq_pipeline (ext : Externals) (self : NbtView) :
    self.parse_nbt ext =
      (match ext.fsRead self.path with
      | .error e => .error ("Error reading File: " ++ e)
      | .ok data =>
        match headerStep self.header ⟨data, 0⟩ with
        | .error e => .error e
        | .ok (hd, stream) =>
          match ext.deserFor self.endian stream with
          | .ok v => .ok (v.1, v.2, hd)
          | .error e => .error ("Error parsing Nbt: " ++ e)) := by
  unfold NbtView.parse_nbt
  cases self.endian <;>
    · cases ext.fsRead self.path with
      | error e => rfl
      | ok data =>
        dsimp only
        cases headerStep self.header ⟨data, 0⟩ with
        | error e => rfl
        | ok p =>
          obtain ⟨hd, stream⟩ := p
          rfl

theorem parse_nbt_ok_elim (ext : Externals) (self : NbtView)
    (n : String) (t : NbtTag) (hd : Option (Int × Int))
    (h : self.parse_nbt ext = .ok (n, t, hd)) :
    ∃ data stream, ext.fsRead self.path = .ok data ∧
      headerStep self.header ⟨data, 0⟩ = .ok (hd, stream) ∧
      ext.deserFor self.endian stream = .ok (n, t) := by
  rw [parse_nbt_eq_pipeline] at h
  split at h
  · simp at h
  · rename_i data hfs
    split at h
    · simp at h
    · rename_i p hd0 stream hh
      split at h
      · rename_i v hdes
        have h' : (v.1, v.2, hd0) = (n, t, hd) := by injection h
        have h1 : v.1 = n := congrArg Prod.fst h'
        have h23 : (v.2, hd0) = (t, hd) := congrArg Prod.snd h'
        have h2 : v.2 = t := congrArg Prod.fst h23
        have h3 : hd0 = hd := congrArg Prod.snd h23
        refine ⟨data, stream, hfs, ?_, ?_⟩
        · rw [hh, h3]
        · rw [hdes, ← h1, ← h2]
      · simp at h

end BEditor
namespace BEditor

/-- Concrete externals for witnesses: an 8-byte buffer encoding the header
pair (1, 256) as little-endian signed 32-bit integers followed by two tag
bytes, with deserializers that succeed with an empty root tag. -/
def extOkHeader : Externals :=
  ⟨fun _ => .ok [1, 0, 0, 0, 0, 1, 0, 0, 10, 0],
   fun _ => .ok ("", NbtTag.Empty),
   fun _ => .ok ("", NbtTag.Empty),
   fun _ => .ok ("", NbtTag.Empty)⟩

/-- Concrete externals whose file read fails. -/
def extIoError : Externals :=
  ⟨fun _ => .error "ioerr",
   fun _ => .ok ("", NbtTag.Empty),
   fun _ => .ok ("", NbtTag.Empty),
   fun _ => .ok ("", NbtTag.Empty)⟩

/-- Concrete externals with a 3-byte file, too short for a header. -/
def extShort : Externals :=
  ⟨fun _ => .ok [1, 2, 3],
   fun _ => .ok ("", NbtTag.Empty),
   fun _ => .ok ("", NbtTag.Empty),
   fun _ => .ok ("", NbtTag.Empty)⟩

/-- Concrete externals whose deserializers all fail. -/
def extDeserFail : Externals :=
  ⟨fun _ => .ok [10, 0, 0, 0],
   fun _ => .error "boom",
   fun _ => .error "boom",
   fun _ => .error "boom"⟩

/-- Concrete externals with a headerless 4-byte file and deserializers
that succeed with an empty compound root. -/
def extNoHeader : Externals :=
  ⟨fun _ => .ok [10, 0, 0, 0],
   fun _ => .ok ("", NbtTag.Compound []),
   fun _ => .ok ("", NbtTag.Compound []),
   fun _ => .ok ("", NbtTag.Compound [])⟩

/-- A view state selecting the Little dialect and the Normal header. -/
def viewNormal : NbtView := ⟨"p", .error "", NbtEndian.Little, NbtHeader.Normal⟩

/-- A view state selecting the Big dialect and the Normal header. -/
def viewNormalBig : NbtView := ⟨"p", .error "", NbtEndian.Big, NbtHeader.Normal⟩

/-- A view state selecting the Little dialect and no header. -/
def viewNone : NbtView := ⟨"p", .error "", NbtEndian.Little, NbtHeader.None⟩

/-- C5: after every update message, including `NbtViewRefresh`, the stored
decode result equals a fresh run of `parse_nbt` on the current state (the
file bytes being re-obtained from the path through `fsRead`), and
`parse_nbt` never reuses the previously stored result: it is independent
of the `nbt` field. -/
theorem update_recomputes_parse (ext : Externals) (s : NbtView) (m : BEditorMessage) :
    (s.update ext m).nbt = NbtView.parse_nbt ext (s.update ext m) ∧
    (∀ x, NbtView.parse_nbt ext { s with nbt := x } = s.parse_nbt ext) := by
  constructor
  · cases m <;> rfl
  · intro x; rfl

/-- C9: each setter message changes exactly its own selection field and
leaves the other two selection fields unchanged; `NbtViewRefresh` changes
none of the three. -/
theorem update_frame_conditions (ext : Externals) (s : NbtView) :
    (∀ v, (s.update ext (BEditorMessage.NbtViewSetPath v)).path = v ∧
          (s.update ext (BEditorMessage.NbtViewSetPath v)).endian = s.endian ∧
          (s.update ext (BEditorMessage.NbtViewSetPath v)).header = s.header) ∧
    (∀ v, (s.update ext (BEditorMessage.NbtViewSetEndian v)).endian = v ∧
          (s.update ext (BEditorMessage.NbtViewSetEndian v)).path = s.path ∧
          (s.update ext (BEditorMessage.NbtViewSetEndian v)).header = s.header) ∧
    (∀ v, (s.update ext (BEditorMessage.NbtViewSetHeader v)).header = v ∧
          (s.update ext (BEditorMessage.NbtViewSetHeader v)).path = s.path ∧
          (s.update ext (BEditorMessage.NbtViewSetHeader v)).endian = s.endian) ∧
    ((s.update ext BEditorMessage.NbtViewRefresh).path = s.path ∧
     (s.update ext BEditorMessage.NbtViewRefresh).endian = s.endian ∧
     (s.update ext BEditorMessage.NbtViewRefresh).header = s.header) :=
  ⟨fun _ => ⟨rfl, rfl, rfl⟩, fun _ => ⟨rfl, rfl, rfl⟩, fun _ => ⟨rfl, rfl, rfl⟩,
   rfl, rfl, rfl⟩

/-- C7: `parse_nbt` is the pipeline: obtain the raw bytes, run the header
step on the cursor at position 0, then dispatch once on the dialect to the
matching deserializer and package the triple; a successful header step
consumes 0 bytes for mode `None` and 8 bytes otherwise; and the dispatch
maps Little to the `NbtLittleEndian` deserializer, LittleNetwork to the
`NbtLittleEndianNetwork` one, and Big to the `NbtBigEndian` one. -/
theorem parse_nbt_control_flow (ext : Externals) (self : NbtView) :
    self.parse_nbt ext =
      (match ext.fsRead self.path with
      | .error e => .error ("Error reading File: " ++ e)
      | .ok data =>
        match headerStep self.header ⟨data, 0⟩ with
        | .error e => .error e
        | .ok (hd, stream) =>
          match ext.deserFor self.endian stream with
          | .ok v => .ok (v.1, v.2, hd)
          | .error e => .error ("Error parsing Nbt: " ++ e)) ∧
    (∀ mode s hd s', headerStep mode s = .ok (hd, s') →
       s'.data = s.data ∧ s'.pos = s.pos + (if mode = NbtHeader.None then 0 else 8)) ∧
    ext.deserFor NbtEndian.Little = ext.deserLittle ∧
    ext.deserFor NbtEndian.LittleNetwork = ext.deserLittleNetwork ∧
    ext.deserFor NbtEndian.Big = ext.deserBig := by
  refine ⟨parse_nbt_eq_pipeline ext self, ?_, rfl, rfl, rfl⟩
  intro mode s hd s' h
  cases mode with
  | None =>
    simp only [headerStep, Except.ok.injEq, Prod.mk.injEq] at h
    rw [← h.2]
    simp
  | Normal =>
    unfold headerStep at h
    cases hr1 : s.read_i32le with
    | error e => rw [hr1] at h; simp at h
    | ok p1 =>
      obtain ⟨v1, s1⟩ := p1
      rw [hr1] at h
      simp only at h
      cases hr2 : s1.read_i32le with
      | error e => rw [hr2] at h; simp at h
      | ok p2 =>
        obtain ⟨v2, s2⟩ := p2
        rw [hr2] at h
        simp only [Except.ok.injEq, Prod.mk.injEq] at h
        obtain ⟨d1, p1eq, _⟩ := read_i32le_ok_bounds s v1 s1 hr1
        obtain ⟨d2, p2eq, _⟩ := read_i32le_ok_bounds s1 v2 s2 hr2
        rw [← h.2]
        refine ⟨by rw [d2, d1], ?_⟩
        rw [p2eq, p1eq]
        simp
  | LevelDat =>
    unfold headerStep at h
    cases hr1 : s.read_i32le with
    | error e => rw [hr1] at h; simp at h
    | ok p1 =>
      obtain ⟨v1, s1⟩ := p1
      rw [hr1] at h
      simp only at h
      cases hr2 : s1.read_i32le with
      | error e => rw [hr2] at h; simp at h
      | ok p2 =>
        obtain ⟨v2, s2⟩ := p2
        rw [hr2] at h
        simp only [Except.ok.injEq, Prod.mk.injEq] at h
        obtain ⟨d1, p1eq, _⟩ := read_i32le_ok_bounds s v1 s1 hr1
        obtain ⟨d2, p2eq, _⟩ := read_i32le_ok_bounds s1 v2 s2 hr2
        rw [← h.2]
        refine ⟨by rw [d2, d1], ?_⟩
        rw [p2eq, p1eq]
        simp

/-- Witness for C7: the header step on the concrete 8-byte header buffer
consumes exactly 8 bytes for the Normal mode. -/
theorem parse_nbt_control_flow_witness :
    (⟨[1, 0, 0, 0, 0, 1, 0, 0], 8⟩ : ByteStreamRead).data =
      (⟨[1, 0, 0, 0, 0, 1, 0, 0], 0⟩ : ByteStreamRead).data ∧
    (⟨[1, 0, 0, 0, 0, 1, 0, 0], 8⟩ : ByteStreamRead).pos =
      (⟨[1, 0, 0, 0, 0, 1, 0, 0], 0⟩ : ByteStreamRead).pos +
        (if NbtHeader.Normal = NbtHeader.None then 0 else 8) :=
  (parse_nbt_control_flow extOkHeader viewNormal).2.1 NbtHeader.Normal
    ⟨[1, 0, 0, 0, 0, 1, 0, 0], 0⟩ (some (1, 256)) ⟨[1, 0, 0, 0, 0, 1, 0, 0], 8⟩ rfl

end BEditor
namespace BEditor

/-- C1: for every input and both non-None header modes, a successful
`parse_nbt` read exactly two little-endian signed 32-bit integers from
the first 8 bytes of the file, regardless of the dialect; the header
component is `some (first, second)` with `first` decoded from bytes 0-3
and `second` from bytes 4-7, and the tag deserializer was run on the
stream positioned at byte 8. -/
theorem parse_nbt_header_reads_two_i32le (ext : Externals) (self : NbtView)
    (n : String) (t : NbtTag) (hd : Option (Int × Int))
    (hm : self.header ≠ NbtHeader.None)
    (h : self.parse_nbt ext = .ok (n, t, hd)) :
    ∃ data b0 b1 b2 b3 b4 b5 b6 b7 rest,
      ext.fsRead self.path = .ok data ∧
      data = b0 :: b1 :: b2 :: b3 :: b4 :: b5 :: b6 :: b7 :: rest ∧
      hd = some (i32ofLeBytes b0 b1 b2 b3, i32ofLeBytes b4 b5 b6 b7) ∧
      ext.deserFor self.endian ⟨data, 8⟩ = .ok (n, t) := by
  obtain ⟨data, stream, hfs, hh, hdes⟩ := parse_nbt_ok_elim ext self n t hd h
  obtain ⟨b0, b1, b2, b3, b4, b5, b6, b7, rest, hdata, hhd, hstream⟩ :=
    headerStep_ok_of_ne_none self.header hm data hd stream hh
  exact ⟨data, b0, b1, b2, b3, b4, b5, b6, b7, rest, hfs, hdata, hhd,
    by rw [← hstream]; exact hdes⟩

/-- Witness for C1: on a file whose first 8 bytes encode (1, 256), the
Normal-header decode returns header `some (1, 256)`. -/
theorem parse_nbt_header_reads_two_i32le_witness :
    viewNormal.header ≠ NbtHeader.None ∧
    viewNormal.parse_nbt extOkHeader = .ok ("", NbtTag.Empty, some (1, 256)) ∧
    (∃ data b0 b1 b2 b3 b4 b5 b6 b7 rest,
      extOkHeader.fsRead viewNormal.path = .ok data ∧
      data = b0 :: b1 :: b2 :: b3 :: b4 :: b5 :: b6 :: b7 :: rest ∧
      (some ((1 : Int), (256 : Int)) : Option (Int × Int)) =
        some (i32ofLeBytes b0 b1 b2 b3, i32ofLeBytes b4 b5 b6 b7) ∧
      extOkHeader.deserFor viewNormal.endian ⟨data, 8⟩ = .ok ("", NbtTag.Empty)) :=
  ⟨by decide, rfl,
   parse_nbt_header_reads_two_i32le extOkHeader viewNormal "" NbtTag.Empty
     (some (1, 256)) (by decide) rfl⟩

/-- C3: every failing step of `parse_nbt` aborts the whole decode with
that step's error and no tag tree: a file-read error surfaces with the
`Error reading File` prefix, a header-step error surfaces unchanged, a
deserializer error surfaces with the `Error parsing Nbt` prefix, and the
header step itself fails with the `Error reading Nbt header` prefix
whenever fewer than 8 bytes remain for a non-None mode. -/
theorem parse_nbt_error_propagation (ext : Externals) (self : NbtView) :
    (∀ e, ext.fsRead self.path = .error e →
       self.parse_nbt ext = .error ("Error reading File: " ++ e)) ∧
    (∀ data e, ext.fsRead self.path = .ok data →
       headerStep self.header ⟨data, 0⟩ = .error e →
       self.parse_nbt ext = .error e) ∧
    (∀ data hd stream e, ext.fsRead self.path = .ok data →
       headerStep self.header ⟨data, 0⟩ = .ok (hd, stream) →
       ext.deserFor self.endian stream = .error e →
       self.parse_nbt ext = .error ("Error parsing Nbt: " ++ e)) ∧
    (∀ mode stream, mode ≠ NbtHeader.None → stream.data.length < stream.pos + 8 →
       headerStep mode stream = .error ("Error reading Nbt header: " ++ "UnexpectedEof")) := by
  refine ⟨?_, ?_, ?_, ?_⟩
  · intro e he
    rw [parse_nbt_eq_pipeline]
    simp only [he]
  · intro data e hfs hh
    rw [parse_nbt_eq_pipeline]
    simp only [hfs, hh]
  · intro data hd stream e hfs hh hdes
    rw [parse_nbt_eq_pipeline]
    simp only [hfs, hh, hdes]
  · intro mode stream hm hlen
    cases mode with
    | None => exact absurd rfl hm
    | Normal =>
      by_cases h4 : stream.data.length < stream.pos + 4
      · unfold headerStep
        rw [read_i32le_error_of_short stream h4]
      · push_neg at h4
        obtain ⟨v, hv⟩ := read_i32le_ok_of_le stream h4
        unfold headerStep
        simp only [hv]
        rw [read_i32le_error_of_short ⟨stream.data, stream.pos + 4⟩ (by dsimp only; omega)]
    | LevelDat =>
      by_cases h4 : stream.data.length < stream.pos + 4
      · unfold headerStep
        rw [read_i32le_error_of_short stream h4]
      · push_neg at h4
        obtain ⟨v, hv⟩ := read_i32le_ok_of_le stream h4
        unfold headerStep
        simp only [hv]
        rw [read_i32le_error_of_short ⟨stream.data, stream.pos + 4⟩ (by dsimp only; omega)]

/-- Witness for C3: a failing file read, a too-short header buffer and a
failing deserializer each abort the decode with their own error. -/
theorem parse_nbt_error_propagation_witness :
    extIoError.fsRead viewNormal.path = .error "ioerr" ∧
    viewNormal.parse_nbt extIoError = .error ("Error reading File: " ++ "ioerr") ∧
    extShort.fsRead viewNormal.path = .ok [1, 2, 3] ∧
    headerStep viewNormal.header ⟨[1, 2, 3], 0⟩ =
      .error ("Error reading Nbt header: " ++ "UnexpectedEof") ∧
    viewNormal.parse_nbt extShort =
      .error ("Error reading Nbt header: " ++ "UnexpectedEof") ∧
    extDeserFail.fsRead viewNone.path = .ok [10, 0, 0, 0] ∧
    extDeserFail.deserFor viewNone.endian ⟨[10, 0, 0, 0], 0⟩ = .error "boom" ∧
    viewNone.parse_nbt extDeserFail = .error ("Error parsing Nbt: " ++ "boom") :=
  ⟨rfl,
   (parse_nbt_error_propagation extIoError viewNormal).1 "ioerr" rfl,
   rfl,
   (parse_nbt_error_propagation extShort viewNormal).2.2.2 NbtHeader.Normal
     ⟨[1, 2, 3], 0⟩ (by decide) (by decide),
   (parse_nbt_error_propagation extShort viewNormal).2.1 [1, 2, 3] _ rfl rfl,
   rfl, rfl,
   (parse_nbt_error_propagation extDeserFail viewNone).2.2.1 [10, 0, 0, 0] none
     ⟨[10, 0, 0, 0], 0⟩ "boom" rfl rfl rfl⟩

/-- C4: the header component of a successful decode is independent of the
dialect: two successful runs over the same externals, path and header
mode, under any two dialects, produce equal header components. -/
theorem parse_nbt_header_dialect_independent (ext : Externals) (path : String)
    (nbt1 nbt2 : Except String (String × NbtTag × Option (Int × Int)))
    (e1 e2 : NbtEndian) (mode : NbtHeader)
    (r1 r2 : String × NbtTag × Option (Int × Int))
    (h1 : NbtView.parse_nbt ext ⟨path, nbt1, e1, mode⟩ = .ok r1)
    (h2 : NbtView.parse_nbt ext ⟨path, nbt2, e2, mode⟩ = .ok r2) :
    r1.2.2 = r2.2.2 := by
  obtain ⟨data1, s1, hfs1, hh1, _⟩ := parse_nbt_ok_elim ext _ r1.1 r1.2.1 r1.2.2 h1
  obtain ⟨data2, s2, hfs2, hh2, _⟩ := parse_nbt_ok_elim ext _ r2.1 r2.2.1 r2.2.2 h2
  have hdata : data1 = data2 := by
    have hfs := hfs1.symm.trans hfs2
    injection hfs
  subst hdata
  have hh := hh1.symm.trans hh2
  have hp : ((r1.2.2 : Option (Int × Int)), s1) = (r2.2.2, s2) := by injection hh
  exact congrArg Prod.fst hp

/-- Witness for C4: the concrete (1, 256) header decodes identically under
all three dialects. -/
theorem parse_nbt_header_dialect_independent_witness :
    NbtView.parse_nbt extOkHeader ⟨"p", .error "", NbtEndian.Little, NbtHeader.Normal⟩ =
      .ok ("", NbtTag.Empty, some (1, 256)) ∧
    NbtView.parse_nbt extOkHeader ⟨"p", .error "", NbtEndian.Big, NbtHeader.Normal⟩ =
      .ok ("", NbtTag.Empty, some (1, 256)) ∧
    NbtView.parse_nbt extOkHeader ⟨"p", .error "", NbtEndian.LittleNetwork, NbtHeader.Normal⟩ =
      .ok ("", NbtTag.Empty, some (1, 256)) ∧
    (("", NbtTag.Empty, (some (1, 256) : Option (Int × Int))) :
        String × NbtTag × Option (Int × Int)).2.2 =
      (("", NbtTag.Empty, (some (1, 256) : Option (Int × Int))) :
        String × NbtTag × Option (Int × Int)).2.2 :=
  ⟨rfl, rfl, rfl,
   parse_nbt_header_dialect_independent extOkHeader "p" (.error "") (.error "")
     NbtEndian.Little NbtEndian.Big NbtHeader.Normal _ _ rfl rfl⟩

/-- C6: when the header mode is None, the deserializer runs on the stream
at position 0 and the header component of a successful result is `none`;
the header component is `some` exactly when the mode is not None. -/
theorem parse_nbt_none_header (ext : Externals) (self : NbtView)
    (n : String) (t : NbtTag) (hd : Option (Int × Int))
    (h : self.parse_nbt ext = .ok (n, t, hd)) :
    (hd.isSome ↔ self.header ≠ NbtHeader.None) ∧
    (self.header = NbtHeader.None →
      hd = none ∧ ∃ data, ext.fsRead self.path = .ok data ∧
        ext.deserFor self.endian ⟨data, 0⟩ = .ok (n, t)) := by
  obtain ⟨data, stream, hfs, hh, hdes⟩ := parse_nbt_ok_elim ext self n t hd h
  by_cases hm : self.header = NbtHeader.None
  · rw [hm] at hh
    simp only [headerStep, Except.ok.injEq, Prod.mk.injEq] at hh
    constructor
    · rw [← hh.1, hm]
      simp
    · intro _
      refine ⟨hh.1.symm, data, hfs, ?_⟩
      rw [hh.2]
      exact hdes
  · obtain ⟨b0, b1, b2, b3, b4, b5, b6, b7, rest, _, hhd, _⟩ :=
      headerStep_ok_of_ne_none self.header hm data hd stream hh
    constructor
    · rw [hhd]
      simp [hm]
    · intro h0
      exact absurd h0 hm

/-- Witness for C6: a headerless decode of a 4-byte file succeeds with
header `none` and the deserializer runs at position 0. -/
theorem parse_nbt_none_header_witness :
    viewNone.parse_nbt extNoHeader = .ok ("", NbtTag.Compound [], none) ∧
    (((none : Option (Int × Int)).isSome ↔ viewNone.header ≠ NbtHeader.None) ∧
     (viewNone.header = NbtHeader.None →
       (none : Option (Int × Int)) = none ∧
       ∃ data, extNoHeader.fsRead viewNone.path = .ok data ∧
         extNoHeader.deserFor viewNone.endian ⟨data, 0⟩ =
           .ok ("", NbtTag.Compound []))) :=
  ⟨rfl, parse_nbt_none_header extNoHeader viewNone "" (NbtTag.Compound []) none rfl⟩

end BEditor
namespace BEditor

/-- C8: every rendered node is a `Column` whose left padding is exactly
`indent * INDENTATION` (and zero top/right/bottom padding), and the
children of a `List` or `Compound` node are rendered at `indent + 1`. -/
theorem nbt2elements_indentation (name : String) (tag : NbtTag) (indent : Nat) :
    (∃ cs, nbt2elements name tag indent =
      Element.column ⟨0, 0, 0, indent * INDENTATION⟩ cs) ∧
    (∀ v, tag = NbtTag.List v →
      nbt2elements name tag indent =
        Element.column ⟨0, 0, 0, indent * INDENTATION⟩
          (Element.text (name ++ nameSep name ++ "[") ::
            (v.map (fun t => nbt2elements "" t (indent + 1)) ++ [Element.text "]"]))) ∧
    (∀ v, tag = NbtTag.Compound v →
      nbt2elements name tag indent =
        Element.column ⟨0, 0, 0, indent * INDENTATION⟩
          (Element.text (name ++ nameSep name ++ "\x7b") ::
            (v.map (fun e => nbt2elements e.1 e.2 (indent + 1)) ++
              [Element.text "\x7d"]))) := by
  refine ⟨?_, ?_, ?_⟩
  · cases tag <;> exact ⟨_, by simp only [nbt2elements]; rfl⟩
  · intro v hv
    subst hv
    simp [nbt2elements, listChildren_eq_map]
  · intro v hv
    subst hv
    simp [nbt2elements, compoundChildren_eq_map]

/-- Witness for C8: rendering a one-element list named `n` at indent 1
gives left padding 3 and the child at indent 2. -/
theorem nbt2elements_indentation_witness :
    nbt2elements "n" (NbtTag.List [NbtTag.Byte 5]) 1 =
      Element.column ⟨0, 0, 0, 1 * INDENTATION⟩
        (Element.text ("n" ++ nameSep "n" ++ "[") ::
          (([NbtTag.Byte 5].map (fun t => nbt2elements "" t (1 + 1))) ++
            [Element.text "]"])) :=
  (nbt2elements_indentation "n" (NbtTag.List [NbtTag.Byte 5]) 1).2.1 [NbtTag.Byte 5] rfl

/-- C2 (amended): per-node display format of the renderer. Compound
renders its braces and List its brackets on text lines of their own
around the children; each of Byte, Int16, Int32, Int64, Float32 and
Float64 renders as one line `name: Type(value)`; String renders as
`name: "value"` with the value in double quotes rather than as
`name: String(value)`; Empty renders as `name: EMPTY` with the `: `
separator always present; for the non-Empty variants the `name: ` prefix
(the name and the `: ` separator) is omitted exactly when the name is
empty, as `nameSep` states. -/
theorem nbt2elements_display_format (name : String) (indent : Nat) :
    (∀ v, nbt2elements name (NbtTag.Byte v) indent =
      Element.column ⟨0, 0, 0, indent * INDENTATION⟩
        [Element.text (name ++ nameSep name ++ "Byte(" ++ toString v ++ ")")]) ∧
    (∀ v, nbt2elements name (NbtTag.Int16 v) indent =
      Element.column ⟨0, 0, 0, indent * INDENTATION⟩
        [Element.text (name ++ nameSep name ++ "Int16(" ++ toString v ++ ")")]) ∧
    (∀ v, nbt2elements name (NbtTag.Int32 v) indent =
      Element.column ⟨0, 0, 0, indent * INDENTATION⟩
        [Element.text (name ++ nameSep name ++ "Int32(" ++ toString v ++ ")")]) ∧
    (∀ v, nbt2elements name (NbtTag.Int64 v) indent =
      Element.column ⟨0, 0, 0, indent * INDENTATION⟩
        [Element.text (name ++ nameSep name ++ "Int64(" ++ toString v ++ ")")]) ∧
    (∀ v, nbt2elements name (NbtTag.Float32 v) indent =
      Element.column ⟨0, 0, 0, indent * INDENTATION⟩
        [Element.text (name ++ nameSep name ++ "Float32(" ++ v ++ ")")]) ∧
    (∀ v, nbt2elements name (NbtTag.Float64 v) indent =
      Element.column ⟨0, 0, 0, indent * INDENTATION⟩
        [Element.text (name ++ nameSep name ++ "Float64(" ++ v ++ ")")]) ∧
    (∀ v, nbt2elements name (NbtTag.String v) indent =
      Element.column ⟨0, 0, 0, indent * INDENTATION⟩
        [Element.text (name ++ nameSep name ++ "\"" ++ v ++ "\"")]) ∧
    (∀ v, nbt2elements name (NbtTag.List v) indent =
      Element.column ⟨0, 0, 0, indent * INDENTATION⟩
        (Element.text (name ++ nameSep name ++ "[") ::
          (v.map (fun t => nbt2elements "" t (indent + 1)) ++ [Element.text "]"]))) ∧
    (∀ v, nbt2elements name (NbtTag.Compound v) indent =
      Element.column ⟨0, 0, 0, indent * INDENTATION⟩
        (Element.text (name ++ nameSep name ++ "\x7b") ::
          (v.map (fun e => nbt2elements e.1 e.2 (indent + 1)) ++
            [Element.text "\x7d"]))) ∧
    (nbt2elements name NbtTag.Empty indent =
      Element.column ⟨0, 0, 0, indent * INDENTATION⟩
        [Element.text (name ++ ": EMPTY")]) ∧
    nameSep name = (if name.isEmpty then "" else ": ") := by
  refine ⟨?_, ?_, ?_, ?_, ?_, ?_, ?_, ?_, ?_, ?_, rfl⟩ <;>
    first
      | (intro v
         simp [nbt2elements, listChildren_eq_map, compoundChildren_eq_map])
      | simp [nbt2elements]

/-- Counterexample to C2 as stated: a String tag named `a` with value `x`
renders its value double-quoted as `a: "x"`, not as `a: String(x)`; and
an Empty tag with the empty name still renders the `: ` separator. -/
theorem nbt2elements_string_format_counterexample :
    nbt2elements "a" (NbtTag.String "x") 0 ≠
      Element.column ⟨0, 0, 0, 0⟩ [Element.text "a: String(x)"] ∧
    nbt2elements "a" (NbtTag.String "x") 0 =
      Element.column ⟨0, 0, 0, 0⟩ [Element.text "a: \"x\""] ∧
    nbt2elements "" NbtTag.Empty 0 =
      Element.column ⟨0, 0, 0, 0⟩ [Element.text ": EMPTY"] := by
  refine ⟨?_, ?_, ?_⟩
  · simp only [nbt2elements, nameSep, ne_eq]
    intro h
    injection h with hpad hcs
    injection hcs with hline
    injection hline with htext
    exact absurd htext (by decide)
  · simp [nbt2elements, nameSep]
    decide
  · simp [nbt2elements]

/-- C10: with an empty name every non-Empty variant renders its line with
no `: ` separator (the line is the bare value text), while Empty always
renders `: EMPTY` after the name, even when the name is empty. -/
theorem nbt2elements_empty_name_separator (indent : Nat) :
    (∀ v, nbt2elements "" (NbtTag.Byte v) indent =
      Element.column ⟨0, 0, 0, indent * INDENTATION⟩
        [Element.text ("Byte(" ++ toString v ++ ")")]) ∧
    (∀ v, nbt2elements "" (NbtTag.Int16 v) indent =
      Element.column ⟨0, 0, 0, indent * INDENTATION⟩
        [Element.text ("Int16(" ++ toString v ++ ")")]) ∧
    (∀ v, nbt2elements "" (NbtTag.Int32 v) indent =
      Element.column ⟨0, 0, 0, indent * INDENTATION⟩
        [Element.text ("Int32(" ++ toString v ++ ")")]) ∧
    (∀ v, nbt2elements "" (NbtTag.Int64 v) indent =
      Element.column ⟨0, 0, 0, indent * INDENTATION⟩
        [Element.text ("Int64(" ++ toString v ++ ")")]) ∧
    (∀ v, nbt2elements "" (NbtTag.Float32 v) indent =
      Element.column ⟨0, 0, 0, indent * INDENTATION⟩
        [Element.text ("Float32(" ++ v ++ ")")]) ∧
    (∀ v, nbt2elements "" (NbtTag.Float64 v) indent =
      Element.column ⟨0, 0, 0, indent * INDENTATION⟩
        [Element.text ("Float64(" ++ v ++ ")")]) ∧
    (∀ v, nbt2elements "" (NbtTag.String v) indent =
      Element.column ⟨0, 0, 0, indent * INDENTATION⟩
        [Element.text ("\"" ++ v ++ "\"")]) ∧
    (∀ v, nbt2elements "" (NbtTag.List v) indent =
      Element.column ⟨0, 0, 0, indent * INDENTATION⟩
        (Element.text "[" ::
          (v.map (fun t => nbt2elements "" t (indent + 1)) ++ [Element.text "]"]))) ∧
    (∀ v, nbt2elements "" (NbtTag.Compound v) indent =
      Element.column ⟨0, 0, 0, indent * INDENTATION⟩
        (Element.text "\x7b" ::
          (v.map (fun e => nbt2elements e.1 e.2 (indent + 1)) ++
            [Element.text "\x7d"]))) ∧
    (∀ name, nbt2elements name NbtTag.Empty indent =
      Element.column ⟨0, 0, 0, indent * INDENTATION⟩
        [Element.text (name ++ ": EMPTY")]) ∧
    (nbt2elements "" NbtTag.Empty indent =
      Element.column ⟨0, 0, 0, indent * INDENTATION⟩
        [Element.text ": EMPTY"]) := by
  refine ⟨?_, ?_, ?_, ?_, ?_, ?_, ?_, ?_, ?_, ?_, ?_⟩ <;>
    first
      | (intro v
         simp [nbt2elements, listChildren_eq_map, compoundChildren_eq_map, nameSep_empty])
      | simp [nbt2elements]

end BEditor
